import Mathlib

/-!
Verification of the endee-go-client batched vector submission and
result-assembly pipeline.

The Go source is shallowly embedded as follows.  Pure arithmetic and
control flow are translated directly.  32-bit floating point values are
idealised: vector components are elements of an arbitrary field (the
theorems instantiate it with the reals, where the Euclidean norm uses
Real.sqrt), and wire numerics are rationals together with an abstract
rounding function constrained only where a claim needs it.  External
collaborators (the HTTP transport, the zlib compressor, the JSON and
msgpack codecs) are modelled as function parameters with the contracts
the source relies on; the pipeline logic itself is translated from the
source files index.go, compression.go, errors.go and constants.go.
Concurrency (worker pools) is modelled by quantifying over the arrival
order of worker results as an arbitrary permutation of the dispatch
positions.
-/

namespace Endee

/-! ## Constants (constants.go) -/

/-- Maximum number of vectors in a single batch operation (constants.go). -/
def MaxVectorsPerBatch : ℕ := 1000

/-- Maximum number of nearest neighbors that can be retrieved (constants.go). -/
def MaxTopKAllowed : ℤ := 512

/-- Maximum ef search parameter for HNSW query accuracy (constants.go). -/
def MaxEfSearchAllowed : ℤ := 1024

/-! ## Vector normalization (index.go, normalizeVector) -/

/-- Dimension mismatch data carried by the error returned when the length
of a vector does not equal the declared index dimension. -/
structure DimMismatch where
  expected : ℕ
  got : ℕ
deriving DecidableEq

/-- Sum of squared components, accumulated left to right exactly as the
Go loop does. -/
def sumSq {α : Type} [Field α] (v : List α) : α :=
  v.foldl (fun s x => s + x * x) 0

/-- Embedding of normalizeVector from index.go.  The square root is a
parameter; claims about cosine normalization instantiate it with
Real.sqrt over the reals. -/
def normalizeVector {α : Type} [Field α] [DecidableEq α] (sqrt : α → α)
    (dimension : ℕ) (spaceType : String) (vector : List α) :
    Except DimMismatch (List α × α) :=
  if vector.length ≠ dimension then
    .error ⟨dimension, vector.length⟩
  else if spaceType ≠ "cosine" then
    .ok (vector, 1)
  else
    let norm := sqrt (sumSq vector)
    if norm = 0 then
      .ok (vector, 1)
    else
      .ok (vector.map (fun x => x / norm), norm)

/-! ## Batch planning (index.go, UpsertWithContext and upsertConcurrent) -/

/-- Ceiling division on naturals, the (a + b - 1) / b idiom used by the
Go source. -/
def natCeilDiv (a b : ℕ) : ℕ := (a + b - 1) / b

/-- Worker count and sub-batch size chosen by upsertConcurrent in
index.go for a batch of n items on a machine with cpu parallelism. -/
def upsertConcurrentPlan (cpu n : ℕ) : ℕ × ℕ :=
  let numWorkers := if n < cpu * 2 then (n + 1) / 2 else cpu
  let batchSize := (n + numWorkers - 1) / numWorkers
  (numWorkers, if batchSize > 100 then 100 else batchSize)

/-! ## Upsert pipeline (index.go, UpsertWithContext) -/

/-- A vector item handed to Upsert (VectorItem in index.go).  Vector
components live in an arbitrary field; the metadata and filter mappings
are opaque to validation and are given abstract types. -/
structure VItem (α μ φ : Type) where
  id : String
  vector : List α
  sparseIndices : List ℤ
  sparseValues : List α
  meta : μ
  filter : φ

/-- Errors produced by the upsert pipeline. -/
inductive UpsertErr where
  | batchTooLarge
  | emptyId (index : ℕ)
  | sparseTogether (id : String)
  | sparseLength (id : String)
  | dimension (e : DimMismatch)
  | transport
deriving DecidableEq

/-- The Go test strings.TrimSpace(id) == "" holds exactly when every
character of the id is whitespace, which is how it is embedded here. -/
def isBlank (s : String) : Bool :=
  s.toList.all Char.isWhitespace

/-- Per-item validation performed by the loop in UpsertWithContext, in
source order: empty (whitespace-trimmed) id, then sparse arrays not both
present, then sparse arrays of different lengths.  Both sparse errors
carry the id of the offending item, as the Go error messages do. -/
def itemError {α μ φ : Type} (index : ℕ) (item : VItem α μ φ) : Option UpsertErr :=
  if isBlank item.id then
    some (.emptyId index)
  else if ¬(0 < item.sparseIndices.length ↔ 0 < item.sparseValues.length) then
    some (.sparseTogether item.id)
  else if 0 < item.sparseIndices.length ∧
      item.sparseIndices.length ≠ item.sparseValues.length then
    some (.sparseLength item.id)
  else
    none

/-- First validation error in the batch, scanning items in order with
their indices, as the Go loop does. -/
def firstItemErrorFrom {α μ φ : Type} (index : ℕ) :
    List (VItem α μ φ) → Option UpsertErr
  | [] => none
  | item :: rest =>
    match itemError index item with
    | some e => some e
    | none => firstItemErrorFrom (index + 1) rest

/-- First validation error in a batch, starting at index 0. -/
def firstItemError {α μ φ : Type} (batch : List (VItem α μ φ)) : Option UpsertErr :=
  firstItemErrorFrom 0 batch

/-- Normalization pass over a batch performed by upsertSequential in
index.go: the first dimension mismatch aborts the loop.  Metadata
compression and msgpack serialization are total collaborator operations
on JSON-representable mappings and cannot alter control flow, so they do
not appear here. -/
def normalizePass {α μ φ : Type} [Field α] [DecidableEq α] (sqrt : α → α)
    (dimension : ℕ) (spaceType : String) :
    List (VItem α μ φ) → Except DimMismatch Unit
  | [] => .ok ()
  | item :: rest =>
    match normalizeVector sqrt dimension spaceType item.vector with
    | .error e => .error e
    | .ok _ => normalizePass sqrt dimension spaceType rest

/-- Embedding of upsertSequential from index.go as a control-flow model:
every item is normalized and encoded, then exactly one transport request
is issued for the whole batch.  The result pairs the outcome with the
number of network requests issued. -/
def upsertSequential {α μ φ : Type} [Field α] [DecidableEq α] (sqrt : α → α)
    (dimension : ℕ) (spaceType : String) (transportOK : Bool)
    (batch : List (VItem α μ φ)) : Except UpsertErr Unit × ℕ :=
  match normalizePass sqrt dimension spaceType batch with
  | .error e => (.error (.dimension e), 0)
  | .ok _ => (if transportOK then .ok () else .error .transport, 1)

/-- Embedding of UpsertWithContext from index.go.  The two execution
strategies are parameters returning an outcome together with the number
of network requests they issue; validation happens before either is
invoked, exactly as in the source. -/
def upsertWithContext {α μ φ : Type}
    (seqGo concGo : List (VItem α μ φ) → Except UpsertErr Unit × ℕ)
    (batch : List (VItem α μ φ)) : Except UpsertErr Unit × ℕ :=
  if batch.length > MaxVectorsPerBatch then
    (.error .batchTooLarge, 0)
  else if batch.length = 0 then
    (.ok (), 0)
  else
    match firstItemError batch with
    | some e => (.error e, 0)
    | none =>
      if batch.length ≤ 10 then seqGo batch else concGo batch

/-! ## Query pipeline (index.go, QueryWithContext) -/

/-- Errors produced by query validation, in the order the checks appear
in QueryWithContext. -/
inductive QueryErr where
  | topKRange
  | efRange
  | missingInput
  | sparseTogether
  | sparseLength
  | dimension (e : DimMismatch)
deriving DecidableEq

/-- The request handed to the transport by QueryWithContext after all
local validation and normalization succeeded. -/
structure QueryReq (α φ : Type) where
  vector : List α
  sparseIndices : List ℤ
  sparseValues : List α
  k : ℤ
  ef : ℤ
  includeVectors : Bool
  filter : Option φ

/-- Embedding of the local phase of QueryWithContext from index.go: the
k and ef range checks, the at-least-one-input check, the sparse
consistency checks, and vector normalization, in source order.  The
dispatch parameter stands for the transport round trip and result
assembly; it returns its payload together with the number of network
requests it issues.  A result of the form (Except.error e, 0) therefore
means the call failed locally with no request sent. -/
def queryWithContext {α φ ρ : Type} [Field α] [DecidableEq α]
    (dispatch : QueryReq α φ → ρ × ℕ) (sqrt : α → α)
    (dimension : ℕ) (spaceType : String)
    (vector : List α) (sparseIndices : List ℤ) (sparseValues : List α)
    (k : ℤ) (filter : Option φ) (ef : ℤ) (includeVectors : Bool) :
    Except QueryErr ρ × ℕ :=
  if k ≤ 0 ∨ k > MaxTopKAllowed then
    (.error .topKRange, 0)
  else if ef < 0 ∨ ef > MaxEfSearchAllowed then
    (.error .efRange, 0)
  else
    if ¬(0 < vector.length) ∧ ¬(0 < sparseIndices.length) then
      (.error .missingInput, 0)
    else if ¬(0 < sparseIndices.length ↔ 0 < sparseValues.length) then
      (.error .sparseTogether, 0)
    else if 0 < sparseIndices.length ∧
        sparseIndices.length ≠ sparseValues.length then
      (.error .sparseLength, 0)
    else
      match normalizeVector sqrt dimension spaceType vector with
      | .error e => (.error (.dimension e), 0)
      | .ok (normalizedVector, _) =>
        let (payload, calls) :=
          dispatch ⟨normalizedVector, sparseIndices, sparseValues, k, ef,
            includeVectors, filter⟩
        (.ok payload, calls)

/-! ## HTTP status classification (errors.go, checkError) -/

/-- Typed error kinds produced by checkError in errors.go.  The Go
APIError carries its status code; the dedicated error types carry only a
message, which is irrelevant to classification and omitted here. -/
inductive RespError where
  | apiError (status : ℕ)
  | authentication
  | subscription
  | forbidden
  | notFound
  | conflict
  | serverBusy
deriving DecidableEq

/-- Embedding of checkError from errors.go: 200 yields no error, and the
switch maps every other status to a typed error.  The Go switch lists
the literal cases 400, 401, 402, 403, 404, 409 and 500, 502, 503, 504,
with a default arm producing a generic APIError carrying the status. -/
def checkError (status : ℕ) : Option RespError :=
  if status = 200 then none
  else if status = 400 then some (.apiError 400)
  else if status = 401 then some .authentication
  else if status = 402 then some .subscription
  else if status = 403 then some .forbidden
  else if status = 404 then some .notFound
  else if status = 409 then some .conflict
  else if status = 500 ∨ status = 502 ∨ status = 503 ∨ status = 504 then
    some .serverBusy
  else some (.apiError status)

/-! ## Metadata compression (compression.go, JsonZip and JsonUnzip) -/

/-- Byte sequences on the wire. -/
abbrev Bytes : Type := List UInt8

/-- Failure cases of JsonUnzip: the zlib reader or the JSON decoder
rejected the payload. -/
inductive UnzipErr where
  | zlibError
  | jsonError
deriving DecidableEq

/-- Embedding of JsonZip from compression.go.  The mapping type is
abstract; isEmpty models the len(data) == 0 test, jsonEnc models
json.Marshal and deflate models the zlib writer.  On JSON-representable
mappings both collaborators are total, which is why the Go error path is
absent from the model. -/
def JsonZip {μ : Type} (isEmpty : μ → Bool) (jsonEnc : μ → Bytes)
    (deflate : Bytes → Bytes) (data : μ) : Bytes :=
  if isEmpty data then [] else deflate (jsonEnc data)

/-- Embedding of JsonUnzip from compression.go: a zero-length input
yields the empty mapping; otherwise the payload is inflated and then
JSON-decoded, either step failing fatally. -/
def JsonUnzip {μ : Type} (emptyMap : μ) (inflate : Bytes → Option Bytes)
    (jsonDec : Bytes → Option μ) (data : Bytes) : Except UnzipErr μ :=
  if data = ([] : Bytes) then .ok emptyMap
  else
    match inflate data with
    | none => .error .zlibError
    | some decompressed =>
      match jsonDec decompressed with
      | none => .error .jsonError
      | some result => .ok result

/-! ## Wire values and numeric coercion (index.go, toFloat32) -/

/-- A dynamically typed wire value as delivered by the msgpack decoder
into a Go interface value.  Numeric payloads are idealised as exact
rationals (for floats) and integers. -/
inductive WireVal where
  | wnil
  | wf32 (q : ℚ)
  | wf64 (q : ℚ)
  | wint (z : ℤ)
  | wi8 (z : ℤ)
  | wi16 (z : ℤ)
  | wi32 (z : ℤ)
  | wi64 (z : ℤ)
  | wu8 (n : ℕ)
  | wu16 (n : ℕ)
  | wu32 (n : ℕ)
  | wu64 (n : ℕ)
  | wstr (s : String)
  | wbytes (b : List UInt8)
  | wbool (b : Bool)
  | warr (l : List WireVal)

/-- Embedding of toFloat32 from index.go.  The rnd parameter models the
rounding performed by a Go conversion to float32; a float32 payload is
already rounded and passes through unchanged, every other numeric case
is converted (and hence rounded), and nil together with every
unrecognized type falls back to zero. -/
def toFloat32 (rnd : ℚ → ℚ) : WireVal → ℚ
  | .wnil => 0
  | .wf32 q => q
  | .wf64 q => rnd q
  | .wint z => rnd (z : ℚ)
  | .wi8 z => rnd (z : ℚ)
  | .wi16 z => rnd (z : ℚ)
  | .wi32 z => rnd (z : ℚ)
  | .wi64 z => rnd (z : ℚ)
  | .wu8 n => rnd (n : ℚ)
  | .wu16 n => rnd (n : ℚ)
  | .wu32 n => rnd (n : ℚ)
  | .wu64 n => rnd (n : ℚ)
  | .wstr _ => 0
  | .wbytes _ => 0
  | .wbool _ => 0
  | .warr _ => 0

/-- The rational q is exactly representable as an IEEE 754 binary32
value: a significand of magnitude below 2 ^ 24 scaled by a power of two
within the exponent range of the format. -/
def Repr32 (q : ℚ) : Prop :=
  ∃ (m : ℤ) (e : ℤ), q = (m : ℚ) * 2 ^ e ∧ m.natAbs < 2 ^ 24 ∧ -149 ≤ e ∧ e ≤ 105

/-- A rounding function faithful to a Go conversion to float32: exact on
every value the format represents exactly. -/
def ExactOnRepr32 (rnd : ℚ → ℚ) : Prop :=
  ∀ q : ℚ, Repr32 q → rnd q = q

/-! ## Result assembly (index.go, QueryWithContext result loop,
processResult and processResultsConcurrent) -/

/-- Collaborator functions the decoder depends on: float32 rounding, the
fmt.Sprintf fallback of safeStringConvert, the raw byte-to-string view
Go applies to a byte slice, the zlib inflater and the two JSON decoders
(one for compressed metadata, one for the filter string).  The mapping
types are abstract, as in the compression model. -/
structure Codecs (μ φ : Type) where
  rnd : ℚ → ℚ
  fmtDefault : WireVal → String
  bytesToStr : List UInt8 → String
  emptyMeta : μ
  inflate : Bytes → Option Bytes
  jsonDecMeta : Bytes → Option μ
  jsonDecFilter : String → Option φ

/-- Embedding of safeStringConvert from index.go: nil becomes the empty
string, strings pass through, byte slices are viewed as strings, and
everything else goes through the fmt.Sprintf fallback. -/
def safeStringConvert {μ φ : Type} (c : Codecs μ φ) (val : WireVal) : String :=
  match val with
  | .wnil => ""
  | .wstr s => s
  | .wbytes b => c.bytesToStr b
  | v => c.fmtDefault v

/-- Metadata bytes extracted from tuple position 2, mirroring the Go
type switch: a string is viewed as bytes, a byte slice is taken as is,
and anything else (including nil) leaves the byte slice empty. -/
def metaBytesOf (val : WireVal) : Bytes :=
  match val with
  | .wstr s => s.toUTF8.toList
  | .wbytes b => b
  | _ => []

/-- Whether a wire value is the nil interface value. -/
def WireVal.isNil : WireVal → Bool
  | .wnil => true
  | _ => false

/-- View of a wire value as an array of wire values.  The Go code
performs an unchecked type assertion here; tuples whose vector slot is
neither nil nor an array crash the Go process and are outside this
model. -/
def arrOf : WireVal → List WireVal
  | .warr l => l
  | _ => []

/-- A decoded query result (QueryResult in index.go).  The meta and
filter fields are none when the Go code leaves the corresponding map
nil. -/
structure Outcome (μ φ : Type) where
  id : String
  similarity : ℚ
  distance : ℚ
  meta : Option μ
  filter : Option φ
  norm : ℚ
  vector : Option (List ℚ)
deriving DecidableEq

/-- The zero value of QueryResult, used to pre-size the concurrent
output slice. -/
def emptyOutcome (μ φ : Type) : Outcome μ φ :=
  ⟨"", 0, 0, none, none, 0, none⟩

/-- Metadata parse shared by both decode paths: only a non-empty byte
slice is unzipped, and an unzip failure leaves the field nil. -/
def parseMeta {μ φ : Type} (c : Codecs μ φ) (metaBytes : Bytes) : Option μ :=
  if metaBytes ≠ ([] : Bytes) then
    match JsonUnzip c.emptyMeta c.inflate c.jsonDecMeta metaBytes with
    | .ok m => some m
    | .error _ => none
  else none

/-- Filter parse shared by both decode paths: only a non-empty string is
decoded, and a decode failure leaves the field nil. -/
def parseFilter {μ φ : Type} (c : Codecs μ φ) (filterStr : String) : Option φ :=
  if filterStr ≠ "" then c.jsonDecFilter filterStr else none

/-- Body of the sequential decode loop in QueryWithContext, applied to a
tuple that already passed the length guard.  The vector data is built
whenever a sixth non-nil element exists, and the Vector field is set
only when vectors were requested and the data is non-empty (the final
clearing loop of the Go code is a no-op under that condition). -/
def decodeTupleSeq {μ φ : Type} (c : Codecs μ φ) (includeVectors : Bool)
    (t : List WireVal) : Outcome μ φ :=
  let similarity := toFloat32 c.rnd (t.getD 0 .wnil)
  let vectorID := safeStringConvert c (t.getD 1 .wnil)
  let metaBytes := metaBytesOf (t.getD 2 .wnil)
  let filterStr := safeStringConvert c (t.getD 3 .wnil)
  let normValue := toFloat32 c.rnd (t.getD 4 .wnil)
  let vectorData :=
    if 5 < t.length ∧ (t.getD 5 .wnil).isNil = false then
      (arrOf (t.getD 5 .wnil)).map (toFloat32 c.rnd)
    else []
  ⟨vectorID, similarity, 1 - similarity, parseMeta c metaBytes,
    parseFilter c filterStr, normValue,
    if includeVectors ∧ vectorData.length > 0 then some vectorData else none⟩

/-- Decode body of processResult in index.go, applied after the length
guard.  Unlike the sequential body, the vector is extracted only when
vectors were requested, and an empty extracted array still populates the
field. -/
def decodeTupleConc {μ φ : Type} (c : Codecs μ φ) (includeVectors : Bool)
    (t : List WireVal) : Outcome μ φ :=
  let similarity := toFloat32 c.rnd (t.getD 0 .wnil)
  let vectorID := safeStringConvert c (t.getD 1 .wnil)
  let metaBytes := metaBytesOf (t.getD 2 .wnil)
  let filterStr := safeStringConvert c (t.getD 3 .wnil)
  let normValue := toFloat32 c.rnd (t.getD 4 .wnil)
  ⟨vectorID, similarity, 1 - similarity, parseMeta c metaBytes,
    parseFilter c filterStr, normValue,
    if includeVectors ∧ 5 < t.length ∧ (t.getD 5 .wnil).isNil = false then
      some ((arrOf (t.getD 5 .wnil)).map (toFloat32 c.rnd))
    else none⟩

/-- Decode failure for a malformed tuple, carrying the number of
elements found, as the Go error message does. -/
inductive DecodeErr where
  | invalidFormat (got : ℕ)
deriving DecidableEq

/-- Embedding of processResult from index.go: a tuple with fewer than 5
elements is a hard error, anything else decodes. -/
def processResult {μ φ : Type} (c : Codecs μ φ) (includeVectors : Bool)
    (t : List WireVal) : Except DecodeErr (Outcome μ φ) :=
  if t.length < 5 then .error (.invalidFormat t.length)
  else .ok (decodeTupleConc c includeVectors t)

/-- The collector step of the concurrent decoder: decode the tagged
position and write the outcome into the output at that position, or
abort with the decode error. -/
def collectStep {β ε : Type} (dec : ℕ → Except ε β)
    (a : List β) (i : ℕ) : Except ε (List β) :=
  match dec i with
  | .error e => .error e
  | .ok v => .ok (a.set i v)

/-- Embedding of processResultsConcurrent from index.go.  Each tuple is
tagged with its position and decoded independently; the collector writes
each decoded outcome into a pre-sized output list at its tagged position
and aborts on the first error it receives.  The arrival order of worker
results is the parameter order, an arbitrary permutation of the
positions. -/
def processResultsConcurrent {μ φ : Type} (c : Codecs μ φ)
    (includeVectors : Bool) (order : List ℕ)
    (results : List (List WireVal)) : Except DecodeErr (List (Outcome μ φ)) :=
  order.foldlM
    (collectStep (fun i => processResult c includeVectors (results.getD i [])))
    (List.replicate results.length (emptyOutcome μ φ))

/-- Embedding of the result-processing dispatch in QueryWithContext:
more than 50 tuples go through the concurrent path, otherwise the
sequential loop decodes in order, skipping tuples that fail the length
guard. -/
def processResults {μ φ : Type} (c : Codecs μ φ) (includeVectors : Bool)
    (order : List ℕ) (results : List (List WireVal)) :
    Except DecodeErr (List (Outcome μ φ)) :=
  if 50 < results.length then
    processResultsConcurrent c includeVectors order results
  else
    .ok ((results.filter (fun t => 5 ≤ t.length)).map
      (decodeTupleSeq c includeVectors))

/-! ## Claim C1: behavior of normalizeVector -/

/-- C1: for every vector and index, normalizeVector fails with a
dimension-mismatch error when the vector length differs from the
declared dimension; otherwise a non-cosine space returns the vector
unchanged with norm 1, a cosine space with zero Euclidean norm (square
root of the sum of squared components) returns the original vector with
norm 1, and a cosine space with non-zero norm returns every component
divided by that norm together with the norm. -/
theorem normalizeVector_spec (dimension : ℕ) (spaceType : String) (v : List ℝ) :
    (v.length ≠ dimension →
      normalizeVector Real.sqrt dimension spaceType v =
        .error ⟨dimension, v.length⟩) ∧
    (v.length = dimension → spaceType ≠ "cosine" →
      normalizeVector Real.sqrt dimension spaceType v = .ok (v, 1)) ∧
    (v.length = dimension → spaceType = "cosine" →
      Real.sqrt (sumSq v) = 0 →
      normalizeVector Real.sqrt dimension spaceType v = .ok (v, 1)) ∧
    (v.length = dimension → spaceType = "cosine" →
      Real.sqrt (sumSq v) ≠ 0 →
      normalizeVector Real.sqrt dimension spaceType v =
        .ok (v.map (fun x => x / Real.sqrt (sumSq v)), Real.sqrt (sumSq v))) := by
  refine ⟨fun h => ?_, fun h hs => ?_, fun h hs hz => ?_, fun h hs hz => ?_⟩
  · simp [normalizeVector, h]
  · simp [normalizeVector, h, hs]
  · simp [normalizeVector, h, hs, hz]
  · simp [normalizeVector, h, hs, hz]

/-- Witness for C1 at a concrete input: the vector (3, 4) against a
two-dimensional cosine index is scaled by its Euclidean norm 5. -/
theorem normalizeVector_spec_witness :
    normalizeVector Real.sqrt 2 "cosine" [(3 : ℝ), 4] =
      .ok ([3 / 5, 4 / 5], 5) := by
  have hs : sumSq [(3 : ℝ), 4] = 25 := by
    simp [sumSq]
    norm_num
  have hq : Real.sqrt (sumSq [(3 : ℝ), 4]) = 5 := by
    rw [hs, show (25 : ℝ) = 5 ^ 2 by norm_num,
      Real.sqrt_sq (by norm_num : (0 : ℝ) ≤ 5)]
  have h := (normalizeVector_spec 2 "cosine" [(3 : ℝ), 4]).2.2.2 rfl rfl
    (by rw [hq]; norm_num)
  rw [h, hq]
  norm_num

/-! ## Claim C2: strategy selection and concurrent planning -/

/-- Normalization of a batch succeeds when every vector has the declared
dimension. -/
theorem normalizePass_ok {α μ φ : Type} [Field α] [DecidableEq α]
    (sqrt : α → α) (dimension : ℕ) (spaceType : String) :
    ∀ batch : List (VItem α μ φ),
      (∀ item ∈ batch, item.vector.length = dimension) →
      normalizePass sqrt dimension spaceType batch = .ok () := by
  intro batch
  induction batch with
  | nil => intro _; rfl
  | cons item rest ih =>
    intro h
    have hitem : item.vector.length = dimension := h item (by simp)
    have hrest := ih (fun x hx => h x (by simp [hx]))
    have hnv : ∃ p, normalizeVector sqrt dimension spaceType item.vector = .ok p := by
      by_cases hc : spaceType = "cosine" <;>
        by_cases hz : sqrt (sumSq item.vector) = 0 <;>
          simp [normalizeVector, hitem, hc, hz]
    obtain ⟨p, hp⟩ := hnv
    simp [normalizePass, hp, hrest]

/-- C2: a validated non-empty batch of at most 10 items is dispatched to
the sequential strategy, which issues exactly one request for the whole
batch; a larger validated batch is dispatched to the concurrent
strategy, whose planned worker count is the minimum of the cpu
parallelism and the ceiling of half the batch size, whose sub-batch size
is the ceiling of the batch size over the worker count capped at 100,
and whose worker count never exceeds the cpu parallelism. -/
theorem upsertStrategy_spec {α μ φ : Type} [Field α] [DecidableEq α]
    (cpu n : ℕ) (hcpu : 1 ≤ cpu) (hn : 0 < n) :
    (∀ (seqGo concGo : List (VItem α μ φ) → Except UpsertErr Unit × ℕ)
        (batch : List (VItem α μ φ)),
        batch.length = n → firstItemError batch = none → n ≤ 10 →
        upsertWithContext seqGo concGo batch = seqGo batch) ∧
    (∀ (sqrt : α → α) (dimension : ℕ) (spaceType : String) (transportOK : Bool)
        (concGo : List (VItem α μ φ) → Except UpsertErr Unit × ℕ)
        (batch : List (VItem α μ φ)),
        batch.length = n → firstItemError batch = none → n ≤ 10 →
        (∀ item ∈ batch, item.vector.length = dimension) →
        (upsertWithContext
          (upsertSequential sqrt dimension spaceType transportOK)
          concGo batch).2 = 1) ∧
    (∀ (seqGo concGo : List (VItem α μ φ) → Except UpsertErr Unit × ℕ)
        (batch : List (VItem α μ φ)),
        batch.length = n → firstItemError batch = none → 10 < n →
        n ≤ MaxVectorsPerBatch →
        upsertWithContext seqGo concGo batch = concGo batch) ∧
    (10 < n →
      (upsertConcurrentPlan cpu n).1 = min cpu (natCeilDiv n 2) ∧
      (upsertConcurrentPlan cpu n).2 =
        min 100 (natCeilDiv n (upsertConcurrentPlan cpu n).1) ∧
      (upsertConcurrentPlan cpu n).1 ≤ cpu) := by
  have hplan1 : (upsertConcurrentPlan cpu n).1 = min cpu (natCeilDiv n 2) := by
    simp only [upsertConcurrentPlan, natCeilDiv]
    split <;> omega
  have hdispatch : ∀ (seqGo concGo : List (VItem α μ φ) → Except UpsertErr Unit × ℕ)
      (batch : List (VItem α μ φ)),
      batch.length = n → firstItemError batch = none → n ≤ MaxVectorsPerBatch →
      upsertWithContext seqGo concGo batch =
        (if batch.length ≤ 10 then seqGo batch else concGo batch) := by
    intro seqGo concGo batch hlen hval hmax
    simp only [MaxVectorsPerBatch] at hmax
    have h1 : ¬(batch.length > MaxVectorsPerBatch) := by
      simp only [MaxVectorsPerBatch]
      omega
    have h2 : ¬(batch.length = 0) := by omega
    simp only [upsertWithContext, if_neg h1, if_neg h2, hval]
  refine ⟨?_, ?_, ?_, ?_⟩
  · intro seqGo concGo batch hlen hval hsmall
    rw [hdispatch seqGo concGo batch hlen hval
      (by simp only [MaxVectorsPerBatch]; omega), if_pos (by omega)]
  · intro sqrt dimension spaceType transportOK concGo batch hlen hval hsmall hdim
    have hseq :
        upsertSequential (μ := μ) (φ := φ) sqrt dimension spaceType transportOK
          batch = (if transportOK then .ok () else .error .transport, 1) := by
      simp [upsertSequential,
        normalizePass_ok sqrt dimension spaceType batch hdim]
    rw [hdispatch _ concGo batch hlen hval
      (by simp only [MaxVectorsPerBatch]; omega), if_pos (by omega), hseq]
  · intro seqGo concGo batch hlen hval hbig hmax
    rw [hdispatch seqGo concGo batch hlen hval hmax, if_neg (by omega)]
  · intro hbig
    refine ⟨hplan1, ?_, ?_⟩
    · rw [hplan1]
      simp only [upsertConcurrentPlan, natCeilDiv]
      have hw : (if n < cpu * 2 then (n + 1) / 2 else cpu) =
          min cpu ((n + 2 - 1) / 2) := by
        split <;> omega
      rw [hw]
      have hpos : 0 < min cpu ((n + 2 - 1) / 2) := by omega
      set w := min cpu ((n + 2 - 1) / 2) with hwdef
      split <;> omega
    · rw [hplan1]
      omega

/-- Witness for C2 at concrete inputs: a validated batch of 30 items
with cpu parallelism 4 goes to the concurrent strategy with 4 workers
and sub-batches of 8, while a batch of 3 items goes to the sequential
strategy and issues a single request. -/
theorem upsertStrategy_spec_witness :
    upsertWithContext (α := ℚ) (μ := Unit) (φ := Unit)
        (fun _ => (.ok (), 3)) (fun _ => (.ok (), 7))
        (List.replicate 30 ⟨"a", [], [], [], (), ()⟩) = (.ok (), 7) ∧
    (upsertConcurrentPlan 4 30).1 = 4 ∧
    (upsertConcurrentPlan 4 30).2 = 8 ∧
    (upsertConcurrentPlan 4 30).1 ≤ 4 ∧
    upsertWithContext (α := ℚ) (μ := Unit) (φ := Unit)
        (fun _ => (.ok (), 3)) (fun _ => (.ok (), 7))
        (List.replicate 3 ⟨"a", [], [], [], (), ()⟩) = (.ok (), 3) ∧
    (upsertWithContext (α := ℚ) (μ := Unit) (φ := Unit)
        (upsertSequential id 0 "l2" true) (fun _ => (.ok (), 7))
        (List.replicate 3 ⟨"a", [], [], [], (), ()⟩)).2 = 1 := by
  have h30 := upsertStrategy_spec (α := ℚ) (μ := Unit) (φ := Unit) 4 30
    (by norm_num) (by norm_num)
  have h3 := upsertStrategy_spec (α := ℚ) (μ := Unit) (φ := Unit) 4 3
    (by norm_num) (by norm_num)
  have hp := h30.2.2.2 (by norm_num)
  refine ⟨?_, ?_, ?_, ?_, ?_, ?_⟩
  · exact h30.2.2.1 _ _ _ (by simp) (by decide) (by norm_num) (by decide)
  · rw [hp.1]
    decide
  · rw [hp.2.1, hp.1]
    decide
  · exact hp.2.2
  · exact h3.1 _ _ _ (by simp) (by decide) (by norm_num)
  · exact h3.2.1 _ _ _ _ _ _ (by simp) (by decide) (by norm_num) (by decide)

/-! ## Claim C3: upsert validation happens before any network request -/

/-- Sparse consistency of an item: indices and values are both present
or both absent, and when present have equal lengths. -/
def sparseConsistent {α μ φ : Type} (item : VItem α μ φ) : Prop :=
  (0 < item.sparseIndices.length ↔ 0 < item.sparseValues.length) ∧
  (0 < item.sparseIndices.length →
    item.sparseIndices.length = item.sparseValues.length)

instance {α μ φ : Type} (item : VItem α μ φ) :
    Decidable (sparseConsistent item) := by
  unfold sparseConsistent
  infer_instance

/-- A batch that scans without a validation error contains only items
with non-blank ids and consistent sparse data. -/
theorem firstItemErrorFrom_none {α μ φ : Type} :
    ∀ (batch : List (VItem α μ φ)) (i : ℕ),
      firstItemErrorFrom i batch = none →
      ∀ item ∈ batch, isBlank item.id = false ∧ sparseConsistent item := by
  intro batch
  induction batch with
  | nil =>
    intro i _ item hm
    simp at hm
  | cons x l ih =>
    intro i h item hm
    rcases hfe : itemError i x with _ | e
    · simp only [firstItemErrorFrom, hfe] at h
      rcases List.mem_cons.mp hm with heq | hm
      · rw [heq]
        by_cases h1 : isBlank x.id
        · simp [itemError, h1] at hfe
        · by_cases h2 : (0 < x.sparseIndices.length ↔
              0 < x.sparseValues.length)
          · by_cases h3 : 0 < x.sparseIndices.length ∧
                x.sparseIndices.length ≠ x.sparseValues.length
            · simp [itemError, h1, h2.mp h3.1, h3.1, h3.2] at hfe
            · refine ⟨by simp [h1], h2, fun hp => ?_⟩
              by_contra hne
              exact h3 ⟨hp, hne⟩
          · simp [itemError, h1, h2] at hfe
      · exact ih (i + 1) h item hm
    · simp [firstItemErrorFrom, hfe] at h

/-- When every id is non-blank and some item is sparse-inconsistent, the
scan stops at such an item and reports one of the two sparse errors
carrying the id of that item. -/
theorem firstItemErrorFrom_sparse {α μ φ : Type} :
    ∀ (batch : List (VItem α μ φ)) (i : ℕ),
      (∀ item ∈ batch, isBlank item.id = false) →
      (∃ item ∈ batch, ¬sparseConsistent item) →
      ∃ item ∈ batch, ¬sparseConsistent item ∧
        (firstItemErrorFrom i batch = some (.sparseTogether item.id) ∨
         firstItemErrorFrom i batch = some (.sparseLength item.id)) := by
  intro batch
  induction batch with
  | nil =>
    intro i _ hex
    simp at hex
  | cons x l ih =>
    intro i hids hex
    have hxid : isBlank x.id = false := hids x (by simp)
    by_cases hx : sparseConsistent x
    · have h3 : ¬(0 < x.sparseIndices.length ∧
          x.sparseIndices.length ≠ x.sparseValues.length) := by
        rintro ⟨hp, hne⟩
        exact hne (hx.2 hp)
      have hnone : itemError i x = none := by
        unfold itemError
        rw [if_neg (by simp [hxid]), if_neg (not_not_intro hx.1), if_neg h3]
      have hex' : ∃ item ∈ l, ¬sparseConsistent item := by
        rcases hex with ⟨item, hm, hbad⟩
        rcases List.mem_cons.mp hm with heq | hm
        · exact absurd (heq ▸ hx) hbad
        · exact ⟨item, hm, hbad⟩
      rcases ih (i + 1) (fun item hm => hids item (by simp [hm])) hex' with
        ⟨item, hm, hbad, hcase⟩
      refine ⟨item, by simp [hm], hbad, ?_⟩
      simpa only [firstItemErrorFrom, hnone] using hcase
    · by_cases h2 : (0 < x.sparseIndices.length ↔ 0 < x.sparseValues.length)
      · have h3 : 0 < x.sparseIndices.length ∧
            x.sparseIndices.length ≠ x.sparseValues.length := by
          by_contra h3
          exact hx ⟨h2, fun hp => by
            by_contra hne
            exact h3 ⟨hp, hne⟩⟩
        refine ⟨x, by simp, hx, Or.inr ?_⟩
        simp [firstItemErrorFrom, itemError, hxid, h2.mp h3.1, h3.1, h3.2]
      · refine ⟨x, by simp, hx, Or.inl ?_⟩
        simp [firstItemErrorFrom, itemError, hxid, h2]

/-- C3: for every transport behavior, a batch of more than 1000 records
fails with the batch-too-large error and zero network requests before
any other processing; a batch containing a record with an empty id fails
with zero network requests; and a batch whose ids are all non-blank but
containing a record with inconsistent sparse data fails, with zero
network requests, with a validation error carrying the id of such a
record. -/
theorem upsertValidation_spec {α μ φ : Type}
    (seqGo concGo : List (VItem α μ φ) → Except UpsertErr Unit × ℕ)
    (batch : List (VItem α μ φ)) :
    (MaxVectorsPerBatch < batch.length →
      upsertWithContext seqGo concGo batch = (.error .batchTooLarge, 0)) ∧
    (batch.length ≤ MaxVectorsPerBatch →
      (∃ item ∈ batch, item.id = "") →
      ∃ e, upsertWithContext seqGo concGo batch = (.error e, 0)) ∧
    (batch.length ≤ MaxVectorsPerBatch →
      (∀ item ∈ batch, isBlank item.id = false) →
      (∃ item ∈ batch, ¬sparseConsistent item) →
      ∃ item ∈ batch, ¬sparseConsistent item ∧
        (upsertWithContext seqGo concGo batch =
          (.error (.sparseTogether item.id), 0) ∨
         upsertWithContext seqGo concGo batch =
          (.error (.sparseLength item.id), 0))) := by
  refine ⟨?_, ?_, ?_⟩
  · intro hbig
    simp only [upsertWithContext, if_pos hbig]
  · intro hmax hex
    have hne : batch.length ≠ 0 := by
      rcases hex with ⟨item, hm, _⟩
      exact List.ne_nil_of_mem hm ∘ List.length_eq_zero.mp
    rcases hfe : firstItemError batch with _ | e
    case some =>
      refine ⟨e, ?_⟩
      simp only [upsertWithContext, if_neg (by omega : ¬batch.length > MaxVectorsPerBatch),
        if_neg hne, hfe]
    case none =>
      exfalso
      rcases hex with ⟨item, hm, hid⟩
      have := (firstItemErrorFrom_none batch 0 hfe item hm).1
      rw [hid] at this
      simp [isBlank] at this
  · intro hmax hids hex
    rcases firstItemErrorFrom_sparse batch 0 hids hex with ⟨item, hm, hbad, hcase⟩
    have hne : batch.length ≠ 0 :=
      List.ne_nil_of_mem hm ∘ List.length_eq_zero.mp
    refine ⟨item, hm, hbad, ?_⟩
    rcases hcase with hcase | hcase
    · exact Or.inl (by
        simp only [upsertWithContext,
          if_neg (by omega : ¬batch.length > MaxVectorsPerBatch),
          if_neg hne, firstItemError] at *
        simp [hcase])
    · exact Or.inr (by
        simp only [upsertWithContext,
          if_neg (by omega : ¬batch.length > MaxVectorsPerBatch),
          if_neg hne, firstItemError] at *
        simp [hcase])

/-- Witness for C3 at concrete inputs: a batch of 1001 records is
rejected as too large with no request, a single record with an empty id
fails with no request, and a record with two sparse indices but one
sparse value fails with a sparse validation error naming its id. -/
theorem upsertValidation_spec_witness :
    upsertWithContext (α := ℚ) (μ := Unit) (φ := Unit)
        (fun _ => (.ok (), 1)) (fun _ => (.ok (), 1))
        (List.replicate 1001 ⟨"a", [], [], [], (), ()⟩) =
      (.error .batchTooLarge, 0) ∧
    (∃ e, upsertWithContext (α := ℚ) (μ := Unit) (φ := Unit)
        (fun _ => (.ok (), 1)) (fun _ => (.ok (), 1))
        [⟨"", [], [], [], (), ()⟩] = (.error e, 0)) ∧
    (∃ item ∈ [(⟨"r1", [], [1, 2], [1 / 10], (), ()⟩ : VItem ℚ Unit Unit)],
      ¬sparseConsistent item ∧
        (upsertWithContext (fun _ => (.ok (), 1)) (fun _ => (.ok (), 1))
            [(⟨"r1", [], [1, 2], [1 / 10], (), ()⟩ : VItem ℚ Unit Unit)] =
          (.error (.sparseTogether item.id), 0) ∨
         upsertWithContext (fun _ => (.ok (), 1)) (fun _ => (.ok (), 1))
            [(⟨"r1", [], [1, 2], [1 / 10], (), ()⟩ : VItem ℚ Unit Unit)] =
          (.error (.sparseLength item.id), 0))) := by
  refine ⟨?_, ?_, ?_⟩
  · exact (upsertValidation_spec _ _ _).1
      (by rw [List.length_replicate]; norm_num [MaxVectorsPerBatch])
  · exact (upsertValidation_spec _ _ _).2.1
      (by norm_num [MaxVectorsPerBatch])
      ⟨⟨"", [], [], [], (), ()⟩, by simp, rfl⟩
  · exact (upsertValidation_spec _ _ _).2.2
      (by norm_num [MaxVectorsPerBatch]) (by decide) (by decide)

/-! ## Claim C4: query parameter range validation -/

/-- C4: for every transport behavior, a query with k outside 1..512
fails locally with the top-k range error and no network request, a query
with valid k but ef outside 0..1024 fails locally with the ef range
error and no network request, and a query with k in 1..512 and ef in
0..1024 never produces either range error. -/
theorem queryParamValidation_spec {α φ ρ : Type} [Field α] [DecidableEq α]
    (dispatch : QueryReq α φ → ρ × ℕ) (sqrt : α → α) (dimension : ℕ)
    (spaceType : String) (vector : List α) (sparseIndices : List ℤ)
    (sparseValues : List α) (filter : Option φ) (includeVectors : Bool) :
    (∀ k ef : ℤ, (k ≤ 0 ∨ 512 < k) →
      queryWithContext dispatch sqrt dimension spaceType vector sparseIndices
        sparseValues k filter ef includeVectors = (.error .topKRange, 0)) ∧
    (∀ k ef : ℤ, 1 ≤ k → k ≤ 512 → (ef < 0 ∨ 1024 < ef) →
      queryWithContext dispatch sqrt dimension spaceType vector sparseIndices
        sparseValues k filter ef includeVectors = (.error .efRange, 0)) ∧
    (∀ k ef : ℤ, 1 ≤ k → k ≤ 512 → 0 ≤ ef → ef ≤ 1024 →
      (queryWithContext dispatch sqrt dimension spaceType vector sparseIndices
        sparseValues k filter ef includeVectors).1 ≠ .error .topKRange ∧
      (queryWithContext dispatch sqrt dimension spaceType vector sparseIndices
        sparseValues k filter ef includeVectors).1 ≠ .error .efRange) := by
  refine ⟨?_, ?_, ?_⟩
  · intro k ef hk
    rw [queryWithContext, if_pos (by simp only [MaxTopKAllowed]; omega)]
  · intro k ef hk1 hk2 hef
    rw [queryWithContext, if_neg (by simp only [MaxTopKAllowed]; omega),
      if_pos (by simp only [MaxEfSearchAllowed]; omega)]
  · intro k ef hk1 hk2 hef1 hef2
    rw [queryWithContext, if_neg (by simp only [MaxTopKAllowed]; omega),
      if_neg (by simp only [MaxEfSearchAllowed]; omega)]
    split
    · simp
    · split
      · simp
      · split
        · simp
        · rcases hnv : normalizeVector sqrt dimension spaceType vector with e | p
          · simp
          · rcases hd : dispatch ⟨p.1, sparseIndices, sparseValues, k, ef,
                includeVectors, filter⟩ with ⟨payload, calls⟩
            simp [hd]

/-- Witness for C4 at concrete inputs: k = 0, k = 513 and ef = 1025 are
rejected locally with no request, while k = 512 with ef = 0 and ef =
1024 produces neither range error. -/
theorem queryParamValidation_spec_witness :
    queryWithContext (α := ℚ) (φ := Unit) (ρ := Unit)
        (fun _ => ((), 1)) id 0 "l2" [] [] [] 0 none 0 false =
      (.error .topKRange, 0) ∧
    queryWithContext (α := ℚ) (φ := Unit) (ρ := Unit)
        (fun _ => ((), 1)) id 0 "l2" [] [] [] 513 none 0 false =
      (.error .topKRange, 0) ∧
    queryWithContext (α := ℚ) (φ := Unit) (ρ := Unit)
        (fun _ => ((), 1)) id 0 "l2" [] [] [] 1 none 1025 false =
      (.error .efRange, 0) ∧
    ((queryWithContext (α := ℚ) (φ := Unit) (ρ := Unit)
        (fun _ => ((), 1)) id 0 "l2" [] [] [] 512 none 0 false).1 ≠
      .error .topKRange) ∧
    ((queryWithContext (α := ℚ) (φ := Unit) (ρ := Unit)
        (fun _ => ((), 1)) id 0 "l2" [] [] [] 512 none 1024 false).1 ≠
      .error .efRange) := by
  have h := queryParamValidation_spec (α := ℚ) (φ := Unit) (ρ := Unit)
    (fun _ => ((), 1)) id 0 "l2" [] [] [] none false
  exact ⟨h.1 0 0 (by norm_num), h.1 513 0 (by norm_num),
    h.2.1 1 1025 (by norm_num) (by norm_num) (by norm_num),
    (h.2.2 512 0 (by norm_num) (by norm_num) (by norm_num) (by norm_num)).1,
    (h.2.2 512 1024 (by norm_num) (by norm_num) (by norm_num) (by norm_num)).2⟩

/-! ## Claim C5: sparse-only queries die on the dimension check -/

/-- C5: for every transport behavior and every index with a non-zero
declared dimension, a query carrying no dense vector but non-empty
sparse indices and values of equal length passes the range, input and
sparse-consistency validations yet always fails locally with the
dimension-mismatch error for a zero-length vector, issuing no network
request. -/
theorem querySparseOnly_spec {α φ ρ : Type} [Field α] [DecidableEq α]
    (dispatch : QueryReq α φ → ρ × ℕ) (sqrt : α → α) (dimension : ℕ)
    (spaceType : String) (sparseIndices : List ℤ) (sparseValues : List α)
    (filter : Option φ) (includeVectors : Bool) (k ef : ℤ)
    (hdim : dimension ≠ 0)
    (hk1 : 1 ≤ k) (hk2 : k ≤ 512) (hef1 : 0 ≤ ef) (hef2 : ef ≤ 1024)
    (hsi : 0 < sparseIndices.length)
    (hlen : sparseIndices.length = sparseValues.length) :
    queryWithContext dispatch sqrt dimension spaceType [] sparseIndices
      sparseValues k filter ef includeVectors =
      (.error (.dimension ⟨dimension, 0⟩), 0) := by
  have hsv : 0 < sparseValues.length := hlen ▸ hsi
  rw [queryWithContext, if_neg (by simp only [MaxTopKAllowed]; omega),
    if_neg (by simp only [MaxEfSearchAllowed]; omega),
    if_neg (by simp [hsi]),
    if_neg (not_not_intro ⟨fun _ => hsv, fun _ => hsi⟩),
    if_neg (by simp [hlen])]
  have hnv : normalizeVector sqrt dimension spaceType ([] : List α) =
      .error ⟨dimension, 0⟩ := by
    rw [normalizeVector, if_pos (by simpa using Ne.symm hdim)]
    rfl
  rw [hnv]

/-- Witness for C5 at a concrete input: a sparse-only query against a
three-dimensional index fails with the dimension-mismatch error and no
request. -/
theorem querySparseOnly_spec_witness :
    queryWithContext (α := ℚ) (φ := Unit) (ρ := Unit)
        (fun _ => ((), 1)) id 3 "cosine" [] [5] [2] 10 none 0 false =
      (.error (.dimension ⟨3, 0⟩), 0) :=
  querySparseOnly_spec (fun _ => ((), 1)) id 3 "cosine" [5] [2] none false
    10 0 (by norm_num) (by norm_num) (by norm_num) (by norm_num)
    (by norm_num) (by norm_num) (by norm_num)

/-! ## Claim C7: numeric coercion to float32 -/

/-- C7: for every rounding function faithful to a float32 conversion,
the coercion maps a float32 payload through unchanged, narrows a float64
payload by rounding (hence exactly whenever the value is representable),
converts every integer width, signed or unsigned, exactly whenever the
value is representable in the 32-bit format, and returns the fallback
zero for nil and for every unrecognized type. -/
theorem toFloat32_spec (rnd : ℚ → ℚ) (h : ExactOnRepr32 rnd) :
    (toFloat32 rnd .wnil = 0) ∧
    (∀ q : ℚ, toFloat32 rnd (.wf32 q) = q) ∧
    (∀ q : ℚ, toFloat32 rnd (.wf64 q) = rnd q) ∧
    (∀ q : ℚ, Repr32 q → toFloat32 rnd (.wf64 q) = q) ∧
    (∀ z : ℤ, Repr32 (z : ℚ) → toFloat32 rnd (.wint z) = (z : ℚ)) ∧
    (∀ z : ℤ, Repr32 (z : ℚ) → toFloat32 rnd (.wi8 z) = (z : ℚ)) ∧
    (∀ z : ℤ, Repr32 (z : ℚ) → toFloat32 rnd (.wi16 z) = (z : ℚ)) ∧
    (∀ z : ℤ, Repr32 (z : ℚ) → toFloat32 rnd (.wi32 z) = (z : ℚ)) ∧
    (∀ z : ℤ, Repr32 (z : ℚ) → toFloat32 rnd (.wi64 z) = (z : ℚ)) ∧
    (∀ n : ℕ, Repr32 (n : ℚ) → toFloat32 rnd (.wu8 n) = (n : ℚ)) ∧
    (∀ n : ℕ, Repr32 (n : ℚ) → toFloat32 rnd (.wu16 n) = (n : ℚ)) ∧
    (∀ n : ℕ, Repr32 (n : ℚ) → toFloat32 rnd (.wu32 n) = (n : ℚ)) ∧
    (∀ n : ℕ, Repr32 (n : ℚ) → toFloat32 rnd (.wu64 n) = (n : ℚ)) ∧
    (∀ s : String, toFloat32 rnd (.wstr s) = 0) ∧
    (∀ b : List UInt8, toFloat32 rnd (.wbytes b) = 0) ∧
    (∀ b : Bool, toFloat32 rnd (.wbool b) = 0) ∧
    (∀ l : List WireVal, toFloat32 rnd (.warr l) = 0) := by
  refine ⟨rfl, fun q => rfl, fun q => rfl, fun q hq => h q hq,
    fun z hz => h _ hz, fun z hz => h _ hz, fun z hz => h _ hz,
    fun z hz => h _ hz, fun z hz => h _ hz,
    fun n hn => h _ hn, fun n hn => h _ hn, fun n hn => h _ hn,
    fun n hn => h _ hn,
    fun s => rfl, fun b => rfl, fun b => rfl, fun l => rfl⟩

/-- Witness for C7: the identity rounding is exact on representables,
and at it the coercion sends a 64-bit integer payload of 7 to 7, a
float64 payload of 3/2 to 3/2, nil to 0 and a string to 0. -/
theorem toFloat32_spec_witness :
    toFloat32 id (.wi64 7) = 7 ∧ toFloat32 id (.wf64 (3 / 2)) = 3 / 2 ∧
    toFloat32 id .wnil = 0 ∧ toFloat32 id (.wstr "x") = 0 := by
  have h := toFloat32_spec id (fun q _ => rfl)
  exact ⟨h.2.2.2.2.2.2.2.2.1 7 ⟨7, 0, by norm_num⟩,
    h.2.2.2.1 (3 / 2) ⟨3, -1, by norm_num⟩,
    h.1, h.2.2.2.2.2.2.2.2.2.2.2.2.2.1 "x"⟩

/-! ## Claim C8: compression round trip -/

/-- C8: for every JSON encoder and lossless compressor pair (inflate
inverts deflate, decoding inverts encoding, compressing a non-empty
encoding never yields a zero-length byte sequence, and the empty mapping
is the unique mapping recognized as empty), JsonZip always succeeds
structurally and JsonUnzip of JsonZip returns the original mapping; the
empty mapping encodes to a zero-length byte sequence and only it does,
and decoding a zero-length byte sequence yields the empty mapping. -/
theorem jsonZipUnzip_roundTrip {μ : Type}
    (isEmpty : μ → Bool) (emptyMap : μ) (jsonEnc : μ → Bytes)
    (deflate : Bytes → Bytes) (inflate : Bytes → Option Bytes)
    (jsonDec : Bytes → Option μ)
    (hinfl : ∀ bs : Bytes, inflate (deflate bs) = some bs)
    (hjson : ∀ m : μ, jsonDec (jsonEnc m) = some m)
    (hne : ∀ m : μ, isEmpty m = false → deflate (jsonEnc m) ≠ ([] : Bytes))
    (hemp : isEmpty emptyMap = true)
    (huniq : ∀ m : μ, isEmpty m = true → m = emptyMap) :
    ∀ m : μ,
      JsonUnzip emptyMap inflate jsonDec (JsonZip isEmpty jsonEnc deflate m) =
        .ok m ∧
      (JsonZip isEmpty jsonEnc deflate m = ([] : Bytes) ↔ isEmpty m = true) ∧
      JsonUnzip emptyMap inflate jsonDec ([] : Bytes) = .ok emptyMap := by
  intro m
  refine ⟨?_, ?_, by rw [JsonUnzip, if_pos rfl]⟩
  · cases he : isEmpty m
    · rw [JsonZip, if_neg (by simp [he]), JsonUnzip,
        if_neg (hne m he), hinfl]
      simp [hjson]
    · rw [JsonZip, if_pos (by simp [he]), JsonUnzip, if_pos rfl,
        huniq m he]
  · cases he : isEmpty m
    · rw [JsonZip, if_neg (by simp [he])]
      simpa using hne m he
    · rw [JsonZip, if_pos (by simp [he])]
      simp

/-- Witness for C8 with a concrete two-element mapping type and the
identity compressor: round trips hold and the zero-length encoding
characterizes the empty mapping. -/
theorem jsonZipUnzip_roundTrip_witness :
    JsonUnzip false some
        (fun bs => if bs = [1] then some true
          else if bs = [0] then some false else none)
        (JsonZip (fun b => !b) (fun b => if b then [1] else [0]) id true) =
      .ok true ∧
    (JsonZip (fun b => !b) (fun b => if b then [1] else [0]) id true =
      ([] : Bytes) ↔ (!true) = true) ∧
    JsonUnzip false some
        (fun bs => if bs = [1] then some true
          else if bs = [0] then some false else none)
        ([] : Bytes) = .ok false :=
  jsonZipUnzip_roundTrip (fun b => !b) false
    (fun b => if b then [1] else [0]) id some
    (fun bs => if bs = [1] then some true
      else if bs = [0] then some false else none)
    (fun bs => rfl) (by decide) (by decide) rfl (by decide) true

/-! ## Claim C9: status code classification (corrected) -/

/-- Counterexample to C9 as stated: 501 lies in the 500 to 599 range but
the classifier maps it to the generic API error, not to server busy. -/
theorem checkError_5xx_counterexample :
    500 ≤ 501 ∧ 501 ≤ 599 ∧
    checkError 501 = some (.apiError 501) ∧
    checkError 501 ≠ some .serverBusy := by
  refine ⟨by norm_num, by norm_num, by decide, by decide⟩

/-- C9 amended: the classifier maps 400 to the API error carrying 400,
401 to authentication, 402 to subscription, 403 to forbidden, 404 to not
found, 409 to conflict, exactly the statuses 500, 502, 503 and 504 to
server busy, and every other non-200 status (including the remaining
5xx statuses) to the generic API error carrying that status. -/
theorem checkError_spec :
    checkError 400 = some (.apiError 400) ∧
    checkError 401 = some .authentication ∧
    checkError 402 = some .subscription ∧
    checkError 403 = some .forbidden ∧
    checkError 404 = some .notFound ∧
    checkError 409 = some .conflict ∧
    (∀ s : ℕ, (s = 500 ∨ s = 502 ∨ s = 503 ∨ s = 504) →
      checkError s = some .serverBusy) ∧
    (∀ s : ℕ, s ≠ 200 →
      s ∉ ([400, 401, 402, 403, 404, 409, 500, 502, 503, 504] : List ℕ) →
      checkError s = some (.apiError s)) ∧
    checkError 200 = none := by
  refine ⟨by decide, by decide, by decide, by decide, by decide, by decide,
    ?_, ?_, by decide⟩
  · intro s hs
    rcases hs with rfl | rfl | rfl | rfl <;> decide
  · intro s hs hmem
    simp only [List.mem_cons, List.not_mem_nil, or_false] at hmem
    push_neg at hmem
    obtain ⟨h400, h401, h402, h403, h404, h409, h500, h502, h503, h504⟩ := hmem
    rw [checkError, if_neg hs, if_neg h400, if_neg h401, if_neg h402,
      if_neg h403, if_neg h404, if_neg h409,
      if_neg (by simp [h500, h502, h503, h504])]

/-- Witness for C9 amended at concrete statuses: 404 maps to not found,
503 maps to server busy and 501 maps to the generic API error. -/
theorem checkError_spec_witness :
    checkError 404 = some (.notFound) ∧
    checkError 503 = some .serverBusy ∧
    checkError 501 = some (.apiError 501) :=
  ⟨checkError_spec.2.2.2.2.1,
    checkError_spec.2.2.2.2.2.2.1 503 (by norm_num),
    checkError_spec.2.2.2.2.2.2.2.1 501 (by norm_num) (by decide)⟩

/-! ## Claims C6 and C10: result assembly -/

/-- Setting a list element leaves the length unchanged and, read back
with a default, returns the written value exactly at an in-range written
position. -/
theorem getD_set {β : Type} (d : β) :
    ∀ (l : List β) (i j : ℕ) (a : β),
      (l.set i a).getD j d = if i = j ∧ i < l.length then a else l.getD j d := by
  intro l
  induction l with
  | nil =>
    intro i j a
    simp
  | cons x xs ih =>
    intro i j a
    cases i with
    | zero =>
      cases j with
      | zero => simp
      | succ j => simp
    | succ i =>
      cases j with
      | zero => simp
      | succ j =>
        simp only [List.set_cons_succ, List.getD_cons_succ, List.length_cons]
        rw [ih i j a]
        by_cases h : i = j ∧ i < xs.length
        · rw [if_pos h, if_pos (by omega)]
        · rw [if_neg h, if_neg (by omega)]

/-- The position-tagged write fold preserves the length of the
accumulator. -/
theorem foldl_set_length {β : Type} (f : ℕ → β) :
    ∀ (order : List ℕ) (acc : List β),
      (order.foldl (fun a i => a.set i (f i)) acc).length = acc.length := by
  intro order
  induction order with
  | nil => intro acc; rfl
  | cons i rest ih =>
    intro acc
    simp only [List.foldl_cons, ih, List.length_set]

/-- After the position-tagged write fold, an in-range position read back
with a default holds the value written for it when the position was
dispatched, and the original accumulator entry otherwise. -/
theorem foldl_set_getD {β : Type} (f : ℕ → β) (d : β) :
    ∀ (order : List ℕ) (acc : List β) (j : ℕ), j < acc.length →
      (order.foldl (fun a i => a.set i (f i)) acc).getD j d =
        if j ∈ order then f j else acc.getD j d := by
  intro order
  induction order with
  | nil =>
    intro acc j hj
    simp
  | cons i rest ih =>
    intro acc j hj
    simp only [List.foldl_cons]
    rw [ih (acc.set i (f i)) j (by simpa using hj), getD_set]
    by_cases hjr : j ∈ rest
    · rw [if_pos hjr, if_pos (by simp [hjr])]
    · rw [if_neg hjr]
      by_cases hij : i = j
      · rw [if_pos ⟨hij, hij ▸ hj⟩, if_pos (by simp [hij]), hij]
      · rw [if_neg (by simp [hij]), if_neg (by simp [hjr]; omega)]

/-- Binding a successful Except value applies the continuation. -/
theorem exceptBind_ok {ε β γ : Type} (x : β) (g : β → Except ε γ) :
    (Except.ok x >>= g) = g x := rfl

/-- Binding a failed Except value propagates the error. -/
theorem exceptBind_error {ε β γ : Type} (e : ε) (g : β → Except ε γ) :
    ((Except.error e : Except ε β) >>= g) = .error e := rfl

/-- When every dispatched position decodes successfully, the monadic
collector fold equals the pure position-tagged write fold. -/
theorem foldlM_set_ok {β ε : Type} (dec : ℕ → Except ε β) (f : ℕ → β) :
    ∀ (order : List ℕ) (acc : List β),
      (∀ i ∈ order, dec i = .ok (f i)) →
      order.foldlM (collectStep dec) acc =
        .ok (order.foldl (fun a i => a.set i (f i)) acc) := by
  intro order
  induction order with
  | nil =>
    intro acc _
    rfl
  | cons i rest ih =>
    intro acc h
    have hi : dec i = .ok (f i) := h i (by simp)
    have hstep : collectStep dec acc i = .ok (acc.set i (f i)) := by
      rw [collectStep, hi]
    rw [List.foldlM_cons, hstep, exceptBind_ok, List.foldl_cons]
    exact ih (acc.set i (f i)) (fun j hj => h j (by simp [hj]))

/-- When some dispatched position fails to decode, the monadic collector
fold aborts with an error. -/
theorem foldlM_set_error {β ε : Type} (dec : ℕ → Except ε β) :
    ∀ (order : List ℕ) (acc : List β),
      (∃ i ∈ order, ∃ e, dec i = .error e) →
      ∃ e, order.foldlM (collectStep dec) acc = .error e := by
  intro order
  induction order with
  | nil =>
    intro acc hex
    simp at hex
  | cons i rest ih =>
    intro acc hex
    rcases hd : dec i with e | b
    · refine ⟨e, ?_⟩
      have hstep : collectStep dec acc i = .error e := by
        rw [collectStep, hd]
      rw [List.foldlM_cons, hstep, exceptBind_error]
    · rcases hex with ⟨j, hj, e, hje⟩
      rcases List.mem_cons.mp hj with heq | hj
      · rw [heq] at hje
        rw [hd] at hje
        cases hje
      · rcases ih (acc.set i b) ⟨j, hj, e, hje⟩ with ⟨e', he'⟩
        refine ⟨e', ?_⟩
        have hstep : collectStep dec acc i = .ok (acc.set i b) := by
          rw [collectStep, hd]
        rw [List.foldlM_cons, hstep, exceptBind_ok, he']

/-- A list containing an element rejected by the filter predicate
strictly shrinks under filtering. -/
theorem length_filter_lt {β : Type} (p : β → Bool) :
    ∀ (l : List β) (x : β), x ∈ l → p x = false →
      (l.filter p).length < l.length := by
  intro l
  induction l with
  | nil =>
    intro x hx _
    simp at hx
  | cons y ys ih =>
    intro x hx hpx
    rcases List.mem_cons.mp hx with heq | hx
    · have hpy : p y = false := heq ▸ hpx
      rw [List.filter_cons_of_neg (by simp [hpy])]
      have := List.length_filter_le p ys
      simp only [List.length_cons]
      omega
    · cases hpy : p y
      · rw [List.filter_cons_of_neg (by simp [hpy])]
        have := List.length_filter_le p ys
        simp only [List.length_cons]
        omega
      · rw [List.filter_cons_of_pos (by simp [hpy])]
        simp only [List.length_cons]
        have := ih x hx hpx
        omega

/-- C10: the concurrent result decoder is order-preserving: for every
response of well-formed tuples and every arrival order of worker
results, decoding succeeds, the output has the same length as the
response, and the outcome at each position is the decoded outcome of the
input tuple at that position; in particular its id is the converted id
slot of that tuple. -/
theorem processResultsConcurrent_orderPreserving {μ φ : Type}
    (c : Codecs μ φ) (includeVectors : Bool)
    (results : List (List WireVal)) (order : List ℕ)
    (hperm : order.Perm (List.range results.length))
    (hwf : ∀ t ∈ results, 5 ≤ t.length) :
    ∃ out, processResultsConcurrent c includeVectors order results = .ok out ∧
      out.length = results.length ∧
      ∀ i, i < results.length →
        out.getD i (emptyOutcome μ φ) =
          decodeTupleConc c includeVectors (results.getD i []) ∧
        (out.getD i (emptyOutcome μ φ)).id =
          safeStringConvert c ((results.getD i []).getD 1 .wnil) := by
  have hdec : ∀ i ∈ order,
      processResult c includeVectors (results.getD i []) =
        .ok (decodeTupleConc c includeVectors (results.getD i [])) := by
    intro i hi
    have hilt : i < results.length :=
      List.mem_range.mp (hperm.mem_iff.mp hi)
    have hmem : results.getD i [] ∈ results := by
      rw [List.getD_eq_getElem results [] hilt]
      exact List.getElem_mem hilt
    have h5 := hwf _ hmem
    rw [processResult, if_neg (by omega)]
  have hok := foldlM_set_ok
    (fun i => processResult c includeVectors (results.getD i []))
    (fun i => decodeTupleConc c includeVectors (results.getD i []))
    order (List.replicate results.length (emptyOutcome μ φ)) hdec
  refine ⟨List.foldl
      (fun a i => a.set i (decodeTupleConc c includeVectors (results.getD i [])))
      (List.replicate results.length (emptyOutcome μ φ)) order, ?_, ?_, ?_⟩
  · unfold processResultsConcurrent
    exact hok
  · rw [foldl_set_length, List.length_replicate]
  · intro i hi
    have hrep : i < (List.replicate results.length (emptyOutcome μ φ)).length := by
      simpa using hi
    rw [foldl_set_getD _ _ order _ i hrep,
      if_pos (hperm.mem_iff.mpr (List.mem_range.mpr hi))]
    exact ⟨rfl, rfl⟩

/-- Witness for C10 at a concrete input: a single well-formed tuple
decoded concurrently in the only arrival order yields an output of
length one whose entry at position zero carries the id at position zero
of the response. -/
theorem processResultsConcurrent_orderPreserving_witness :
    ∃ out, processResultsConcurrent
        (⟨id, fun _ => "", fun _ => "", (), fun _ => none, fun _ => none,
          fun _ => none⟩ : Codecs Unit Unit) false [0]
        [[.wnil, .wstr "a", .wnil, .wnil, .wnil]] = .ok out ∧
      out.length = 1 ∧
      ∀ i, i < 1 →
        out.getD i (emptyOutcome Unit Unit) =
          decodeTupleConc
            (⟨id, fun _ => "", fun _ => "", (), fun _ => none, fun _ => none,
              fun _ => none⟩ : Codecs Unit Unit) false
            ([[.wnil, .wstr "a", .wnil, .wnil, .wnil]].getD i []) ∧
        (out.getD i (emptyOutcome Unit Unit)).id =
          safeStringConvert
            (⟨id, fun _ => "", fun _ => "", (), fun _ => none, fun _ => none,
              fun _ => none⟩ : Codecs Unit Unit)
            (([[.wnil, .wstr "a", .wnil, .wnil, .wnil]].getD i []).getD 1
              .wnil) :=
  processResultsConcurrent_orderPreserving _ false
    [[.wnil, .wstr "a", .wnil, .wnil, .wnil]] [0]
    (by simp [List.range_succ]) (by simp)

/-- C6: when a response contains a malformed tuple of fewer than five
elements, the sequential path (at most 50 tuples) silently skips it and
returns the decoded well-formed tuples, producing strictly fewer
outcomes than response tuples, while the concurrent path (more than 50
tuples) aborts the whole assembly with an error for every arrival
order. -/
theorem processResults_malformed_spec {μ φ : Type} (c : Codecs μ φ)
    (includeVectors : Bool) (order : List ℕ)
    (results : List (List WireVal))
    (hmal : ∃ t ∈ results, t.length < 5) :
    (results.length ≤ 50 →
      processResults c includeVectors order results =
        .ok ((results.filter (fun t => 5 ≤ t.length)).map
          (decodeTupleSeq c includeVectors)) ∧
      ((results.filter (fun t => 5 ≤ t.length)).map
          (decodeTupleSeq c includeVectors)).length < results.length) ∧
    (50 < results.length → order.Perm (List.range results.length) →
      ∃ e, processResults c includeVectors order results = .error e) := by
  constructor
  · intro hle
    constructor
    · rw [processResults, if_neg (by omega)]
    · rw [List.length_map]
      rcases hmal with ⟨t, hm, h5⟩
      exact length_filter_lt _ results t hm (by simp; omega)
  · intro hgt hperm
    rcases hmal with ⟨t, hm, h5⟩
    rcases List.mem_iff_getElem.mp hm with ⟨i, hilt, hig⟩
    have hi_ord : i ∈ order := hperm.mem_iff.mpr (List.mem_range.mpr hilt)
    have hdec : processResult c includeVectors (results.getD i []) =
        .error (.invalidFormat t.length) := by
      rw [List.getD_eq_getElem results [] hilt, hig, processResult,
        if_pos h5]
    rcases foldlM_set_error
        (fun i => processResult c includeVectors (results.getD i [])) order
        (List.replicate results.length (emptyOutcome μ φ))
        ⟨i, hi_ord, _, hdec⟩ with ⟨e, he⟩
    refine ⟨e, ?_⟩
    rw [processResults, if_pos hgt]
    exact he

/-- Witness for C6 at a concrete input: a response of 51 empty tuples is
over the concurrent threshold and the assembly aborts with an error in
the identity arrival order. -/
theorem processResults_malformed_spec_witness :
    ∃ e, processResults
        (⟨id, fun _ => "", fun _ => "", (), fun _ => none, fun _ => none,
          fun _ => none⟩ : Codecs Unit Unit) false (List.range 51)
        (List.replicate 51 []) = .error e :=
  (processResults_malformed_spec _ false (List.range 51)
      (List.replicate 51 [])
      ⟨[], by simp, by norm_num⟩).2
    (by simp) (by simp [List.length_replicate])

end Endee
